import Mathlib

/-!
Shallow embedding of `source/small_vector.h`: the `small_vector<T, N>`
container (small buffer optimization) and the `span<T>` view.

Elements are tracked abstractly over a type `α`. The container state is
modelled by the two size fields plus the contents of the union: the list of
constructed elements in the inline region `small_data_`, and the state of the
`unique_ptr data_` member (`none` = the union member is not an alive, owning
pointer; `some l` = an owned heap allocation whose constructed prefix is `l`).
Reading uninitialized or unowned storage is modelled as `none` (absence of a
value), matching the fact that no constructed element is there.
-/

set_option autoImplicit false

universe u

structure small_vector (α : Type u) (N : Nat) where
  size_ : Nat
  capacity_ : Nat
  inline_data : List α
  heap_data : Option (List α)
deriving DecidableEq

namespace small_vector

variable {α : Type u} {N : Nat}

/-- Default constructor: `size_(0), capacity_(N)`, no element constructed. -/
def empty (α : Type u) (N : Nat) : small_vector α N :=
  ⟨0, N, [], none⟩

/-- Accessor `size()`. -/
def size (s : small_vector α N) : Nat := s.size_

/-- Accessor `capacity()`. -/
def capacity (s : small_vector α N) : Nat := s.capacity_

/-- The live element sequence that `begin() .. end()` walks: the inline
region when `capacity_ == N`, else the heap buffer (empty if the union holds
no owned allocation). -/
def liveElems (s : small_vector α N) : List α :=
  if s.capacity_ = N then s.inline_data else s.heap_data.getD []

/-- Reading element `i` through `operator[]` / `begin() + i`; `none` models a
read of storage holding no constructed element. -/
def read (s : small_vector α N) (i : Nat) : Option α :=
  if s.capacity_ = N then s.inline_data.get? i
  else s.heap_data.bind fun l => l.get? i

/-- Well-formedness of a container state: sizes consistent, and exactly the
storage region selected by the mode test `capacity_ == N` is active. -/
def WF (s : small_vector α N) : Prop :=
  s.size_ ≤ s.capacity_ ∧ N ≤ s.capacity_ ∧
  (s.capacity_ = N → s.inline_data.length = s.size_ ∧ s.heap_data = none) ∧
  (s.capacity_ ≠ N → Option.map List.length s.heap_data = some s.size_ ∧
    s.inline_data = [])

instance [DecidableEq α] (s : small_vector α N) : Decidable (s.WF) := by
  unfold WF
  infer_instance

/-- `reserve(new_capacity)`: no-op unless growing; otherwise allocate exactly
`new_capacity` cells, move-construct the live elements there, destroy the
originals, switch the union to the external pointer, and update `capacity_`. -/
def reserve (s : small_vector α N) (new_capacity : Nat) : small_vector α N :=
  if new_capacity ≤ s.capacity_ then s
  else ⟨s.size_, new_capacity, [], some s.liveElems⟩

/-- `shrink_to_fit()`: no-op when inline; otherwise `capacity_` becomes
`max(N, size_)`, elements are relocated into the inline region (when the new
capacity is `N`) or into a fresh tight heap buffer, and the old allocation is
freed. -/
def shrink_to_fit (s : small_vector α N) : small_vector α N :=
  if s.capacity_ = N then s
  else if max N s.size_ = N then ⟨s.size_, N, s.heap_data.getD [], none⟩
  else ⟨s.size_, max N s.size_, [], some (s.heap_data.getD [])⟩

/-- The tail of `push_back` and `emplace_back`:
`new (end()) value_type(t); ++size_;` — placement-construct `t` at index
`size_` of the active storage region and bump the size. -/
def place_back (s : small_vector α N) (t : α) : small_vector α N :=
  if s.capacity_ = N then
    ⟨s.size_ + 1, s.capacity_, s.inline_data ++ [t], s.heap_data⟩
  else
    ⟨s.size_ + 1, s.capacity_, s.inline_data,
      some (s.heap_data.getD [] ++ [t])⟩

/-- `push_back(t)`: grow via `reserve(capacity_ * 2)` when full, then
placement-construct `t` at `end()` and increment `size_`. -/
def push_back (s : small_vector α N) (t : α) : small_vector α N :=
  place_back (if s.size_ = s.capacity_ then s.reserve (s.capacity_ * 2) else s) t

/-- `pop_back()`: decrement `size_` and destroy the element past the new
`end()`. -/
def pop_back (s : small_vector α N) : small_vector α N :=
  if s.capacity_ = N then
    ⟨s.size_ - 1, s.capacity_, s.inline_data.dropLast, s.heap_data⟩
  else
    ⟨s.size_ - 1, s.capacity_, s.inline_data, s.heap_data.map List.dropLast⟩

/-- `clear()`: destroy all live elements, `size_ = 0`, capacity untouched. -/
def clear (s : small_vector α N) : small_vector α N :=
  if s.capacity_ = N then ⟨0, s.capacity_, [], s.heap_data⟩
  else ⟨0, s.capacity_, s.inline_data, s.heap_data.map (fun _ => [])⟩

/-- The `initializer_list` constructor: start empty, `reserve(init.size())`,
copy-construct the elements at `begin()`, set `size_`. -/
def of_list (l : List α) : small_vector α N :=
  let s := (empty α N).reserve l.length
  if s.capacity_ = N then ⟨l.length, s.capacity_, l, s.heap_data⟩
  else ⟨l.length, s.capacity_, s.inline_data, some l⟩

/-- Result of running the move constructor `small_vector(small_vector&& v)`:
the new object, the donor as the constructor leaves it, and how many element
move-constructions and element destructor calls were performed. -/
structure move_result (α : Type u) (N : Nat) where
  dest : small_vector α N
  src : small_vector α N
  moveCtorCalls : Nat
  dtorCalls : Nat
deriving DecidableEq

/-- The move constructor, exactly as written: it initializes
`size_(v.size_), capacity_(v.capacity_)` and then branches on
`v.capacity_ == v.size_` (NOT on the mode test `v.capacity_ == N` used
everywhere else).

First branch (labelled "move in internal mode" in the source):
`move_construct_elems(v.begin(), v.end(), begin())` then
`call_dtors(v.begin(), v.end())` then `v.size_ = 0`. When `capacity_ ≠ N`
the destination `begin()` dereferences its own `data_` union member, which
was never constructed: the writes land through an indeterminate pointer, so
the destination owns no allocation and holds no constructed element
(`heap_data = none`); the donor keeps its capacity and its (now destroyed)
heap allocation.

Second branch (labelled "move in external mode (steal the guts)"):
`data_ = std::move(v.data_)`, then the donor gets `capacity_ = N`,
`size_ = 0`. When the donor was actually inline, `v.data_` is not an alive
pointer (the union holds elements), so nothing real is transferred
(`heap_data` of an inline donor is `none`), no element is move-constructed,
and no destructor ever runs on the donor elements left in `small_data_`. -/
def move_ctor (v : small_vector α N) : move_result α N :=
  if v.capacity_ = v.size_ then
    { dest :=
        if v.capacity_ = N then
          ⟨v.size_, v.capacity_, v.liveElems, none⟩
        else
          ⟨v.size_, v.capacity_, [], none⟩,
      src :=
        if v.capacity_ = N then
          ⟨0, v.capacity_, [], v.heap_data⟩
        else
          ⟨0, v.capacity_, v.inline_data, v.heap_data.map (fun _ => [])⟩,
      moveCtorCalls := v.size_,
      dtorCalls := v.size_ }
  else
    { dest := ⟨v.size_, v.capacity_, [], v.heap_data⟩,
      src := ⟨0, N, v.inline_data, none⟩,
      moveCtorCalls := 0,
      dtorCalls := 0 }

/-- Fallible-allocation refinement of `reserve`: the `new storage_type[...]`
on the first line of the growth path either succeeds (`alloc_ok`) or fails;
on failure nothing has been mutated yet, so the state is returned unchanged
together with a failure flag. -/
def reserve_f (s : small_vector α N) (new_capacity : Nat) (alloc_ok : Bool) :
    small_vector α N × Bool :=
  if new_capacity ≤ s.capacity_ then (s, true)
  else if alloc_ok then (⟨s.size_, new_capacity, [], some s.liveElems⟩, true)
  else (s, false)

/-- A public mutating operation on the container. -/
inductive op (α : Type u) where
  | push : α → op α
  | pop : op α
  | clr : op α
  | reserveOp : Nat → op α
  | shrink : op α

/-- Apply one public operation. -/
def apply (s : small_vector α N) : op α → small_vector α N
  | .push v => s.push_back v
  | .pop => s.pop_back
  | .clr => s.clear
  | .reserveOp n => s.reserve n
  | .shrink => s.shrink_to_fit

/-- Precondition of an operation; only `pop_back` has one (`length > 0`). -/
def pre (s : small_vector α N) (o : op α) : Prop :=
  match o with
  | .pop => 0 < s.size_
  | _ => True

instance (s : small_vector α N) (o : op α) : Decidable (s.pre o) := by
  cases o <;> (unfold pre; infer_instance)

/-- States reachable from a newly constructed vector by public operations
respecting their preconditions. -/
inductive reachable : small_vector α N → Prop where
  | init : reachable (empty α N)
  | step {s : small_vector α N} (o : op α) :
      reachable s → s.pre o → reachable (s.apply o)

/-- Fold of `push_back` over a list, for push-only histories. -/
def push_many (s : small_vector α N) (l : List α) : small_vector α N :=
  l.foldl push_back s

end small_vector

/-- Shallow embedding of `span<T>`: a `(data_, len_)` pair. The data pointer
is modelled as an address (a `Nat` index) into a memory of `T` cells, passed
to the reading operations as a function `mem : Nat → α`. -/
structure span (α : Type u) where
  data_ : Nat
  len_ : Nat
deriving DecidableEq

namespace span

variable {α : Type u}

/-- Constructor `span(T* data, size_t len)`. -/
def mk_ptr (α : Type u) (data : Nat) (len : Nat) : span α := ⟨data, len⟩

/-- Copy constructor `span(T const & t)`: copies `data_` and `len_`. -/
def copy (s : span α) : span α := ⟨s.data_, s.len_⟩

/-- `size()` returns `len_`. -/
def size (s : span α) : Nat := s.len_

/-- `data()` returns `data_` (the address of the first element). -/
def data (s : span α) : Nat := s.data_

/-- `operator[](n)` returns `data_[n]`. -/
def get (mem : Nat → α) (s : span α) (n : Nat) : α := mem (s.data_ + n)

/-- `front()` returns `data_[0]`. -/
def front (mem : Nat → α) (s : span α) : α := mem (s.data_ + 0)

/-- `back()` returns `data_[len_ - 1]`. -/
def back (mem : Nat → α) (s : span α) : α := mem (s.data_ + (s.len_ - 1))

end span

/-!
Helper lemmas about the embedding.
-/

namespace small_vector

variable {α : Type u} {N : Nat}

lemma read_eq_get (s : small_vector α N) (i : Nat) :
    s.read i = s.liveElems.get? i := by
  unfold read liveElems
  split
  · rfl
  · rcases hs : s.heap_data with _ | l <;> simp [hs]

lemma WF.live_length {s : small_vector α N} (h : s.WF) :
    s.liveElems.length = s.size_ := by
  unfold liveElems
  split
  · next hc => exact (h.2.2.1 hc).1
  · next hc =>
    obtain ⟨hl, -⟩ := h.2.2.2 hc
    rcases hs : s.heap_data with _ | l
    · rw [hs] at hl; cases hl
    · rw [hs] at hl
      simp only [Option.map_some', Option.some.injEq] at hl
      simp [hl]

lemma empty_wf : (empty α N).WF :=
  ⟨Nat.zero_le _, Nat.le_refl _, fun _ => ⟨rfl, rfl⟩, fun h => absurd rfl h⟩

lemma reserve_size (s : small_vector α N) (n : Nat) :
    (s.reserve n).size_ = s.size_ := by
  unfold reserve; split <;> rfl

lemma reserve_capacity (s : small_vector α N) (n : Nat) :
    (s.reserve n).capacity_ = max s.capacity_ n := by
  unfold reserve
  split
  · next h => exact (Nat.max_eq_left h).symm
  · next h =>
    show n = max s.capacity_ n
    exact (Nat.max_eq_right (by omega)).symm

lemma reserve_liveElems (s : small_vector α N) (hN : N ≤ s.capacity_)
    (n : Nat) : (s.reserve n).liveElems = s.liveElems := by
  unfold reserve
  split
  · rfl
  · next h =>
    have hne : ¬ (n = N) := by omega
    simp [liveElems, hne]

lemma reserve_wf {s : small_vector α N} (h : s.WF) (n : Nat) :
    (s.reserve n).WF := by
  have hlen := h.live_length
  obtain ⟨h1, h2, h3, h4⟩ := h
  unfold reserve
  split
  · exact ⟨h1, h2, h3, h4⟩
  · next hle =>
    have hne : ¬ (n = N) := by omega
    refine ⟨?_, ?_, fun hc => absurd hc hne, fun _ => ⟨?_, rfl⟩⟩
    · show s.size_ ≤ n
      omega
    · show N ≤ n
      omega
    · show Option.map List.length (some s.liveElems) = some s.size_
      simp [hlen]

lemma place_back_size (s : small_vector α N) (t : α) :
    (s.place_back t).size_ = s.size_ + 1 := by
  unfold place_back; split <;> rfl

lemma place_back_capacity (s : small_vector α N) (t : α) :
    (s.place_back t).capacity_ = s.capacity_ := by
  unfold place_back; split <;> rfl

lemma place_back_liveElems (s : small_vector α N) (t : α) :
    (s.place_back t).liveElems = s.liveElems ++ [t] := by
  unfold place_back liveElems
  split
  · next hc => simp [hc]
  · next hc =>
    rcases hs : s.heap_data with _ | l <;> simp [hs, hc]

lemma place_back_wf {s : small_vector α N} (h : s.WF)
    (hlt : s.size_ < s.capacity_) (t : α) : (s.place_back t).WF := by
  obtain ⟨h1, h2, h3, h4⟩ := h
  unfold place_back
  split
  · next hc =>
    obtain ⟨hi, hh⟩ := h3 hc
    refine ⟨?_, h2, fun _ => ⟨?_, hh⟩, fun hnc => absurd hc hnc⟩
    · show s.size_ + 1 ≤ s.capacity_
      omega
    · show (s.inline_data ++ [t]).length = s.size_ + 1
      simp [hi]
  · next hc =>
    obtain ⟨hl, hi⟩ := h4 hc
    rcases hs : s.heap_data with _ | l
    · rw [hs] at hl; cases hl
    · rw [hs] at hl
      simp only [Option.map_some', Option.some.injEq] at hl
      refine ⟨?_, h2, fun hcc => absurd hcc hc, fun _ => ⟨?_, hi⟩⟩
      · show s.size_ + 1 ≤ s.capacity_
        omega
      · simp [hl]

lemma push_back_spec {s : small_vector α N} (h : s.WF)
    (hc : 1 ≤ s.capacity_) (t : α) :
    (s.push_back t).size_ = s.size_ + 1 ∧
    (s.push_back t).capacity_ =
      (if s.size_ = s.capacity_ then s.capacity_ * 2 else s.capacity_) ∧
    (s.push_back t).liveElems = s.liveElems ++ [t] ∧
    (s.push_back t).WF := by
  unfold push_back
  by_cases hfull : s.size_ = s.capacity_
  · rw [if_pos hfull]
    have hgrow : s.capacity_ < s.capacity_ * 2 := by omega
    have hw : (s.reserve (s.capacity_ * 2)).WF := reserve_wf h _
    have hsz := reserve_size s (s.capacity_ * 2)
    have hcap := reserve_capacity s (s.capacity_ * 2)
    have hlive := reserve_liveElems s h.2.1 (s.capacity_ * 2)
    have hcap2 : (s.reserve (s.capacity_ * 2)).capacity_ = s.capacity_ * 2 := by
      rw [hcap]; omega
    refine ⟨?_, ?_, ?_, ?_⟩
    · rw [place_back_size, hsz]
    · rw [place_back_capacity, hcap2, if_pos hfull]
    · rw [place_back_liveElems, hlive]
    · exact place_back_wf hw (by omega) t
  · rw [if_neg hfull]
    have hlt : s.size_ < s.capacity_ := by
      have := h.1
      omega
    refine ⟨place_back_size s t, ?_, place_back_liveElems s t,
      place_back_wf h hlt t⟩
    rw [place_back_capacity, if_neg hfull]

lemma pop_back_size (s : small_vector α N) :
    (s.pop_back).size_ = s.size_ - 1 := by
  unfold pop_back; split <;> rfl

lemma pop_back_capacity (s : small_vector α N) :
    (s.pop_back).capacity_ = s.capacity_ := by
  unfold pop_back; split <;> rfl

lemma pop_back_liveElems (s : small_vector α N) :
    (s.pop_back).liveElems = s.liveElems.dropLast := by
  unfold pop_back liveElems
  split
  · next hc => simp [hc]
  · next hc =>
    rcases hs : s.heap_data with _ | l <;> simp [hs, hc]

lemma clear_capacity (s : small_vector α N) :
    (s.clear).capacity_ = s.capacity_ := by
  unfold clear; split <;> rfl

lemma push_back_capacity_le (s : small_vector α N) (t : α) :
    s.capacity_ ≤ (s.push_back t).capacity_ := by
  unfold push_back
  rw [place_back_capacity]
  split
  · rw [reserve_capacity]; exact Nat.le_max_left _ _
  · exact Nat.le_refl _

lemma shrink_capacity_ge (s : small_vector α N) (h : N ≤ s.capacity_) :
    N ≤ (s.shrink_to_fit).capacity_ := by
  unfold shrink_to_fit
  split
  · exact h
  · split
    · exact Nat.le_refl N
    · exact Nat.le_max_left _ _

end small_vector

/-!
Claim theorems.
-/

/-- C1: the claim fails on the code. The move constructor branches on
`v.capacity_ == v.size_` instead of the mode test `v.capacity_ == N`. For the
heap-mode source `small_vector<T, 2>` holding `[1, 2, 3, 4]` (capacity 4 > N,
and size == capacity), it takes the element-wise branch: 4 element
move-constructions and 4 destructor calls are performed (the claim says
none), the donor is left with `capacity_ = 4` (the claim says it reverts to
the empty inline state with capacity N = 2), and the destination ends up
owning no heap allocation (its writes went through an uninitialized
pointer) — reading its element 0 finds no constructed element. -/
theorem c1_move_heap_full_source_bug :
    let v : small_vector Nat 2 := small_vector.of_list [1, 2, 3, 4]
    v.WF ∧ v.capacity_ = 4 ∧ v.size_ = 4 ∧
    (small_vector.move_ctor v).moveCtorCalls = 4 ∧
    (small_vector.move_ctor v).dtorCalls = 4 ∧
    (small_vector.move_ctor v).src.size_ = 0 ∧
    (small_vector.move_ctor v).src.capacity_ = 4 ∧
    (small_vector.move_ctor v).dest.heap_data = none ∧
    (small_vector.move_ctor v).dest.read 0 = none := by
  decide

/-- C2: the claim fails on the code. For the inline-mode source
`small_vector<T, 2>` holding the single element `5` (capacity N = 2,
size 1, so `v.capacity_ == v.size_` is false), the move constructor takes
the steal-the-guts branch: zero element relocations are performed (the claim
says exactly `length = 1`), no destructor runs on the original (the claim
says the originals are destroyed), and the destination claims `size() == 1`
while its inline storage holds no constructed element, so it does not hold
the element sequence the source held. -/
theorem c2_move_inline_partial_source_bug :
    let v : small_vector Nat 2 := small_vector.of_list [5]
    v.WF ∧ v.capacity_ = 2 ∧ v.size_ = 1 ∧ v.read 0 = some 5 ∧
    (small_vector.move_ctor v).moveCtorCalls = 0 ∧
    (small_vector.move_ctor v).dtorCalls = 0 ∧
    (small_vector.move_ctor v).dest.size_ = 1 ∧
    (small_vector.move_ctor v).dest.read 0 = none := by
  decide

/-- C3, counterexample: the claim as stated is false. Pushing three elements
into a `small_vector<T, 2>` and popping one reaches a state with
`size() = 2 ≤ N` but `capacity() = 4 ≠ N` (pop never returns to inline
mode). -/
theorem c3_counterexample :
    ¬ (∀ s : small_vector Nat 2, small_vector.reachable s →
        s.size_ ≤ 2 → s.capacity_ = 2) := by
  intro h
  have h0 : small_vector.reachable (small_vector.empty Nat 2) :=
    small_vector.reachable.init
  have h1 := small_vector.reachable.step (small_vector.op.push 1) h0
    (by decide)
  have h2 := small_vector.reachable.step (small_vector.op.push 2) h1
    (by decide)
  have h3 := small_vector.reachable.step (small_vector.op.push 3) h2
    (by decide)
  have h4 := small_vector.reachable.step small_vector.op.pop h3 (by decide)
  have h5 := h _ h4 (by decide)
  exact absurd h5 (by decide)

/-- Invariant for push-only histories: well-formedness plus the property that
a vector that has not outgrown N is still inline. -/
theorem push_many_inv {α : Type u} {N : Nat} (hN : 1 ≤ N) (l : List α) :
    ∀ s : small_vector α N, s.WF → (s.size_ ≤ N → s.capacity_ = N) →
      (small_vector.push_many s l).WF ∧
      ((small_vector.push_many s l).size_ ≤ N →
        (small_vector.push_many s l).capacity_ = N) := by
  induction l with
  | nil => exact fun s h1 h2 => ⟨h1, h2⟩
  | cons a l ih =>
    intro s h1 h2
    have hc : 1 ≤ s.capacity_ := le_trans hN h1.2.1
    obtain ⟨hsz, hcap, hlive, hwf⟩ := small_vector.push_back_spec h1 hc a
    have hinv : (s.push_back a).size_ ≤ N → (s.push_back a).capacity_ = N := by
      intro hle
      rw [hsz] at hle
      rw [hcap]
      by_cases hfull : s.size_ = s.capacity_
      · exfalso
        have := h1.2.1
        omega
      · rw [if_neg hfull]
        exact h2 (by omega)
    exact ih (s.push_back a) hwf hinv

/-- C3, amended: for every state reachable from a newly constructed vector by
push_back operations alone (pop_back and an explicit reserve can leave a
vector in heap mode with few elements, refuting the original claim), if
`size() ≤ N` then the vector is inline (`capacity() = N`); and the push_back
that takes the size from N to N + 1 yields heap mode with
`capacity() ≥ N + 1` (for `N ≥ 1`). -/
theorem c3_amended_push_only {α : Type u} {N : Nat} (hN : 1 ≤ N)
    (l : List α) (v : α) :
    ((small_vector.push_many (small_vector.empty α N) l).size_ ≤ N →
      (small_vector.push_many (small_vector.empty α N) l).capacity_ = N) ∧
    ((small_vector.push_many (small_vector.empty α N) l).size_ = N →
      ((small_vector.push_many (small_vector.empty α N) l).push_back v).size_
          = N + 1 ∧
      N + 1 ≤
        ((small_vector.push_many (small_vector.empty α N) l).push_back
          v).capacity_ ∧
      ((small_vector.push_many (small_vector.empty α N) l).push_back
          v).capacity_ ≠ N) := by
  obtain ⟨hwf, hinv⟩ := push_many_inv hN l (small_vector.empty α N)
    small_vector.empty_wf (fun _ => rfl)
  refine ⟨hinv, fun hN' => ?_⟩
  have hcN := hinv (le_of_eq hN')
  have hc : 1 ≤ (small_vector.push_many (small_vector.empty α N) l).capacity_ :=
    le_trans hN hwf.2.1
  obtain ⟨hsz, hcap, -, -⟩ := small_vector.push_back_spec hwf hc v
  have hfull : (small_vector.push_many (small_vector.empty α N) l).size_ =
      (small_vector.push_many (small_vector.empty α N) l).capacity_ := by
    rw [hN', hcN]
  refine ⟨by rw [hsz, hN'], ?_, ?_⟩
  · rw [hcap, if_pos hfull, hcN]
    omega
  · rw [hcap, if_pos hfull, hcN]
    omega

/-- Witness for the amended C3 at `N = 2`, pushes `[7, 8]` then `9`. -/
theorem c3_amended_witness :
    ((small_vector.push_many (small_vector.empty Nat 2) [7, 8]).capacity_ = 2) ∧
    ((small_vector.push_many (small_vector.empty Nat 2) [7, 8]).push_back
      9).size_ = 3 ∧
    3 ≤ ((small_vector.push_many (small_vector.empty Nat 2) [7, 8]).push_back
      9).capacity_ :=
  ⟨(c3_amended_push_only (by decide) [7, 8] 9).1 (by decide),
   ((c3_amended_push_only (by decide) [7, 8] 9).2 (by decide)).1,
   ((c3_amended_push_only (by decide) [7, 8] 9).2 (by decide)).2.1⟩

/-- C4: `push_back(v)` yields `size()` one larger, the new value readable at
index `size() - 1`, all previously stored elements unchanged at their
indices; and when the vector was full the capacity is grown to exactly
`max(capacity * 2, 1)` (for `N ≥ 1` the two arguments of `max` never tie at
0, matching the plain `capacity_ * 2` the code requests). -/
theorem c4_push_back {α : Type u} {N : Nat} (s : small_vector α N)
    (hwf : s.WF) (hN : 1 ≤ N) (t : α) :
    (s.push_back t).size_ = s.size_ + 1 ∧
    (s.push_back t).read s.size_ = some t ∧
    (∀ i, i < s.size_ → (s.push_back t).read i = s.read i) ∧
    (s.size_ = s.capacity_ →
      (s.push_back t).capacity_ = max (s.capacity_ * 2) 1) := by
  have hc : 1 ≤ s.capacity_ := le_trans hN hwf.2.1
  obtain ⟨h1, h2, h3, h4⟩ := small_vector.push_back_spec hwf hc t
  refine ⟨h1, ?_, ?_, ?_⟩
  · rw [small_vector.read_eq_get, h3, ← hwf.live_length]
    exact List.get?_concat_length _ _
  · intro i hi
    rw [small_vector.read_eq_get, small_vector.read_eq_get, h3,
      List.get?_append (by rw [hwf.live_length]; exact hi)]
  · intro hfull
    rw [h2, if_pos hfull, Nat.max_eq_left (by omega)]

/-- Witness for C4: pushing `9` onto the full inline `small_vector<_, 2>`
holding `[4, 5]`. -/
theorem c4_push_back_witness :
    (small_vector.of_list [4, 5] : small_vector Nat 2).WF ∧
    ((small_vector.of_list [4, 5] : small_vector Nat 2).push_back 9).size_
      = 3 ∧
    ((small_vector.of_list [4, 5] : small_vector Nat 2).push_back 9).read 2
      = some 9 ∧
    ((small_vector.of_list [4, 5] : small_vector Nat 2).push_back
      9).capacity_ = max (2 * 2) 1 :=
  ⟨by decide,
   (c4_push_back _ (by decide) (by decide) 9).1,
   (c4_push_back _ (by decide) (by decide) 9).2.1,
   (c4_push_back _ (by decide) (by decide) 9).2.2.2 (by decide)⟩

/-- C5: `reserve(n)` is the identity when `n ≤ capacity()`; otherwise it sets
`capacity()` to exactly `n`, keeps `size()`, and the element sequence
observed by index afterwards is identical to the one before the call. -/
theorem c5_reserve {α : Type u} {N : Nat} (s : small_vector α N)
    (hwf : s.WF) (n : Nat) :
    (n ≤ s.capacity_ → s.reserve n = s) ∧
    (s.capacity_ < n →
      (s.reserve n).capacity_ = n ∧
      (s.reserve n).size_ = s.size_ ∧
      (∀ i, (s.reserve n).read i = s.read i)) := by
  constructor
  · intro h
    unfold small_vector.reserve
    rw [if_pos h]
  · intro h
    refine ⟨?_, small_vector.reserve_size s n, fun i => ?_⟩
    · rw [small_vector.reserve_capacity, Nat.max_eq_right (le_of_lt h)]
    · rw [small_vector.read_eq_get, small_vector.read_eq_get,
        small_vector.reserve_liveElems s hwf.2.1 n]

/-- Witness for C5: growing the inline `small_vector<_, 2>` holding `[1]` to
capacity 5, and the no-op `reserve(1)`. -/
theorem c5_reserve_witness :
    (small_vector.of_list [1] : small_vector Nat 2).WF ∧
    ((small_vector.of_list [1] : small_vector Nat 2).reserve 5).capacity_
      = 5 ∧
    ((small_vector.of_list [1] : small_vector Nat 2).reserve 5).read 0 =
      (small_vector.of_list [1] : small_vector Nat 2).read 0 ∧
    (small_vector.of_list [1] : small_vector Nat 2).reserve 1 =
      small_vector.of_list [1] :=
  ⟨by decide,
   ((c5_reserve _ (by decide) 5).2 (by decide)).1,
   ((c5_reserve _ (by decide) 5).2 (by decide)).2.2 0,
   (c5_reserve _ (by decide) 1).1 (by decide)⟩

/-- C6: `shrink_to_fit` is a no-op in inline mode; on a heap-mode vector it
keeps `size()` and every element value, returns to inline mode
(`capacity() = N`) when `size() ≤ N`, and otherwise ends with
`capacity() = size()`. -/
theorem c6_shrink_to_fit {α : Type u} {N : Nat} (s : small_vector α N)
    (hwf : s.WF) :
    (s.capacity_ = N → s.shrink_to_fit = s) ∧
    (s.shrink_to_fit).size_ = s.size_ ∧
    (∀ i, (s.shrink_to_fit).read i = s.read i) ∧
    (s.capacity_ ≠ N → s.size_ ≤ N → (s.shrink_to_fit).capacity_ = N) ∧
    (s.capacity_ ≠ N → N < s.size_ → (s.shrink_to_fit).capacity_ = s.size_)
    := by
  by_cases hc : s.capacity_ = N
  · unfold small_vector.shrink_to_fit
    rw [if_pos hc]
    exact ⟨fun _ => rfl, rfl, fun i => rfl, fun hnc => absurd hc hnc,
      fun hnc => absurd hc hnc⟩
  · obtain ⟨hl, -⟩ := hwf.2.2.2 hc
    rcases hs : s.heap_data with _ | l
    · rw [hs] at hl; cases hl
    · rw [hs] at hl
      simp only [Option.map_some', Option.some.injEq] at hl
      unfold small_vector.shrink_to_fit
      rw [if_neg hc]
      by_cases hm : max N s.size_ = N
      · rw [if_pos hm]
        refine ⟨fun hcc => absurd hcc hc, rfl, fun i => ?_, fun _ _ => rfl,
          fun _ h5 => ?_⟩
        · simp [small_vector.read, hc, hs]
        · omega
      · rw [if_neg hm]
        refine ⟨fun hcc => absurd hcc hc, rfl, fun i => ?_, fun _ h4 => ?_,
          fun _ h5 => ?_⟩
        · simp [small_vector.read, hc, hs, hm]
        · omega
        · show max N s.size_ = s.size_
          omega

/-- Witness for C6: a heap-mode `small_vector<_, 2>` with capacity 3 holding
`[1, 2]` (after one pop) returns to inline mode with capacity 2. -/
theorem c6_shrink_to_fit_witness :
    ((small_vector.of_list [1, 2, 3] : small_vector Nat 2).pop_back).WF ∧
    ((small_vector.of_list [1, 2, 3] :
      small_vector Nat 2).pop_back).shrink_to_fit.size_ = 2 ∧
    ((small_vector.of_list [1, 2, 3] :
      small_vector Nat 2).pop_back).shrink_to_fit.capacity_ = 2 :=
  ⟨by decide,
   (c6_shrink_to_fit _ (by decide)).2.1,
   (c6_shrink_to_fit _ (by decide)).2.2.2.1 (by decide) (by decide)⟩

/-- C7: `push_back(v)` then `pop_back` restores `size()`, keeps the capacity
the push established (pop never reduces capacity), and leaves the elements at
indices below `size()` unchanged. -/
theorem c7_push_pop {α : Type u} {N : Nat} (s : small_vector α N)
    (hwf : s.WF) (hN : 1 ≤ N) (t : α) :
    ((s.push_back t).pop_back).size_ = s.size_ ∧
    ((s.push_back t).pop_back).capacity_ = (s.push_back t).capacity_ ∧
    (∀ i, i < s.size_ → ((s.push_back t).pop_back).read i = s.read i) := by
  have hc : 1 ≤ s.capacity_ := le_trans hN hwf.2.1
  obtain ⟨h1, h2, h3, h4⟩ := small_vector.push_back_spec hwf hc t
  refine ⟨?_, small_vector.pop_back_capacity _, fun i _ => ?_⟩
  · rw [small_vector.pop_back_size, h1]
    omega
  · rw [small_vector.read_eq_get, small_vector.read_eq_get,
      small_vector.pop_back_liveElems, h3, List.dropLast_concat]

/-- Witness for C7: push `7` onto the full inline `[1, 2]` (which grows to
the heap) and pop it again. -/
theorem c7_push_pop_witness :
    (small_vector.of_list [1, 2] : small_vector Nat 2).WF ∧
    (((small_vector.of_list [1, 2] : small_vector Nat 2).push_back
      7).pop_back).size_ = 2 ∧
    (((small_vector.of_list [1, 2] : small_vector Nat 2).push_back
      7).pop_back).capacity_ =
      ((small_vector.of_list [1, 2] : small_vector Nat 2).push_back
        7).capacity_ ∧
    (((small_vector.of_list [1, 2] : small_vector Nat 2).push_back
      7).pop_back).read 0 =
      (small_vector.of_list [1, 2] : small_vector Nat 2).read 0 :=
  ⟨by decide,
   (c7_push_pop _ (by decide) (by decide) 7).1,
   (c7_push_pop _ (by decide) (by decide) 7).2.1,
   (c7_push_pop _ (by decide) (by decide) 7).2.2 0 (by decide)⟩

/-- C8: the fallible-allocation refinement of `reserve` agrees with `reserve`
when allocation succeeds, and on allocation failure returns the vector
completely unchanged — same state, hence same `size()`, `capacity()` and
every element value; no mutation precedes the allocation in the code. -/
theorem c8_reserve_alloc_failure {α : Type u} {N : Nat}
    (s : small_vector α N) (n : Nat) :
    (s.reserve_f n true).1 = s.reserve n ∧
    (s.reserve_f n false).1 = s ∧
    (s.reserve_f n false).1.size_ = s.size_ ∧
    (s.reserve_f n false).1.capacity_ = s.capacity_ ∧
    (∀ i, (s.reserve_f n false).1.read i = s.read i) := by
  unfold small_vector.reserve_f small_vector.reserve
  by_cases h : n ≤ s.capacity_ <;> simp [h]

/-- C9: a `span` built from pointer `p` and length `len` over a memory `mem`
reports `size() = len` and `data() = p`, its indexed access, `front()` and
`back()` are direct pass-throughs to the underlying elements, and copying it
duplicates the view (same pointer, same length), not the data. -/
theorem c9_span_passthrough {α : Type u} (mem : Nat → α) (p len : Nat)
    (h : 0 < len) :
    (span.mk_ptr α p len).size = len ∧
    (span.mk_ptr α p len).data = p ∧
    (∀ i, i < len → span.get mem (span.mk_ptr α p len) i = mem (p + i)) ∧
    span.front mem (span.mk_ptr α p len) = mem p ∧
    span.back mem (span.mk_ptr α p len) = mem (p + (len - 1)) ∧
    (span.mk_ptr α p len).copy.data = p ∧
    (span.mk_ptr α p len).copy.size = len := by
  refine ⟨rfl, rfl, fun i _ => rfl, ?_, rfl, rfl, rfl⟩
  show mem (p + 0) = mem p
  rw [Nat.add_zero]

/-- Witness for C9: a span over a 5-element region starting at address 10 of
the memory `fun i => i + 100`. -/
theorem c9_span_witness :
    span.get (fun i => i + 100) (span.mk_ptr Nat 10 5) 0 = 110 ∧
    span.get (fun i => i + 100) (span.mk_ptr Nat 10 5) 4 = 114 ∧
    (span.mk_ptr Nat 10 5).size = 5 ∧
    span.front (fun i => i + 100) (span.mk_ptr Nat 10 5) = 110 ∧
    span.back (fun i => i + 100) (span.mk_ptr Nat 10 5) = 114 ∧
    (span.mk_ptr Nat 10 5).copy.size = 5 :=
  ⟨(c9_span_passthrough (fun i => i + 100) 10 5 (by decide)).2.2.1 0
     (by decide),
   (c9_span_passthrough (fun i => i + 100) 10 5 (by decide)).2.2.1 4
     (by decide),
   (c9_span_passthrough (fun i => i + 100) 10 5 (by decide)).1,
   (c9_span_passthrough (fun i => i + 100) 10 5 (by decide)).2.2.2.1,
   (c9_span_passthrough (fun i => i + 100) 10 5 (by decide)).2.2.2.2.1,
   (c9_span_passthrough (fun i => i + 100) 10 5 (by decide)).2.2.2.2.2.2⟩

/-- C10: over every state reachable by precondition-respecting public
operations from a newly constructed vector, `capacity()` never drops below
the inline capacity N: `reserve` only grows, `pop_back` and `clear` keep the
capacity, and `shrink_to_fit` clamps the new capacity to `max(N, size_)`. -/
theorem c10_capacity_never_below_inline {α : Type u} {N : Nat}
    (s : small_vector α N) (h : small_vector.reachable s) :
    N ≤ s.capacity_ := by
  induction h with
  | init => exact Nat.le_refl N
  | step o hr hp ih =>
    cases o with
    | push v =>
      simp only [small_vector.apply]
      exact le_trans ih (small_vector.push_back_capacity_le _ v)
    | pop =>
      simp only [small_vector.apply]
      rw [small_vector.pop_back_capacity]
      exact ih
    | clr =>
      simp only [small_vector.apply]
      rw [small_vector.clear_capacity]
      exact ih
    | reserveOp n =>
      simp only [small_vector.apply]
      rw [small_vector.reserve_capacity]
      exact le_trans ih (Nat.le_max_left _ _)
    | shrink =>
      simp only [small_vector.apply]
      exact small_vector.shrink_capacity_ge _ ih

/-- Witness for C10: the state reached by pushing 1, 2, 3 into a
`small_vector<_, 2>` and then calling `shrink_to_fit` (capacity becomes 3,
still at least N = 2). -/
theorem c10_capacity_witness :
    2 ≤ (((((small_vector.empty Nat 2).apply
      (small_vector.op.push 1)).apply (small_vector.op.push 2)).apply
      (small_vector.op.push 3)).apply small_vector.op.shrink).capacity_ :=
  c10_capacity_never_below_inline _
    (small_vector.reachable.step small_vector.op.shrink
      (small_vector.reachable.step (small_vector.op.push 3)
        (small_vector.reachable.step (small_vector.op.push 2)
          (small_vector.reachable.step (small_vector.op.push 1)
            (small_vector.reachable.init :
              small_vector.reachable (small_vector.empty Nat 2))
            (by decide))
          (by decide))
        (by decide))
      (by decide))
